import Mathlib

/-!
Verification of the change-detection / caching engine and the dependency-aware
scheduler of relative-deps.

Shallow embedding of:
- `src/utils.ts`   : `findFiles` (globby listing followed by `.sort()`);
- `src/cache.ts`   : `quickChangeCheck`, `computeFileHashes`, `libraryHasChanged`,
                     the shape of `ChangeMetadata`;
- `src/core.ts`    : `buildDependencyGraph`, `topologicalSort`,
                     `processPackagesInParallel` (deterministic wave projection),
                     the sequential branch of `installRelativeDeps`, and the
                     cache-record persist step (hash write followed by metadata write).

File-system reads (directory listings, per-file checksums, manifest parses,
cache-file contents) are passed in as explicit parameters or oracle functions;
a `none` result of an oracle models a thrown/failed read at that point.
-/

namespace RelativeDeps

/- ### Content fingerprinter (`src/utils.ts` `findFiles`, `src/cache.ts` `computeFileHashes`) -/

/-- Lexicographic file ordering used to canonicalize the globby listing
(JS `Array.prototype.sort()` default string comparison). -/
def fileOrder (a b : String) : Prop := a.data ≤ b.data

instance : DecidableRel fileOrder := fun a b => (inferInstance : Decidable (a.data ≤ b.data))

instance : IsTotal String fileOrder := ⟨fun a b => le_total a.data b.data⟩

instance : IsTrans String fileOrder := ⟨fun _ _ _ h h' => le_trans h h'⟩

instance : IsAntisymm String fileOrder := ⟨fun _ _ h h' => String.ext (le_antisymm h h')⟩

/-- `findFiles` of `src/utils.ts`: globby produces the raw relative-path listing
(`listing`, in arbitrary traversal order); the function returns `files.sort()`. -/
def findFiles (listing : List String) : List String :=
  List.insertionSort fileOrder listing

/-- JS `Array.prototype.join("\n")`. -/
def joinLines : List String → String
  | [] => ""
  | [l] => l
  | l :: ls => l ++ "\n" ++ joinLines ls

/-- Result record of `computeFileHashes` (`FileHashResult` of `src/types.ts`). -/
structure FileHashResult where
  contents : String
  changedFiles : List String
deriving Repr, DecidableEq

/-- The per-file lines of the composite string: for each file of the listing, the
checksum when hashing succeeds, the sentinel `ERROR` when it throws, followed by
a space and the relative path (`hashes[index] + " " + file` in `src/cache.ts`). -/
def hashLines (libFiles : List String) (hashOracle : String → Option String) : List String :=
  libFiles.map (fun f => ((hashOracle f).getD "ERROR") ++ " " ++ f)

/-- `computeFileHashes` of `src/cache.ts`: `hashOracle f = some h` models a
successful `getFileHash`, `none` a thrown one (caught: the file is pushed onto
`changedFiles` and `"ERROR"` onto `hashes`). `contents` is the joined lines. -/
def computeFileHashes (libFiles : List String) (hashOracle : String → Option String) :
    FileHashResult :=
  { contents := joinLines (hashLines libFiles hashOracle)
    changedFiles := libFiles.filter (fun f => (hashOracle f).isNone) }

/- ### Metadata snapshot and change detector (`src/cache.ts`) -/

/-- `ChangeMetadata` of `src/types.ts`: the cheap snapshot compared by
`quickChangeCheck` (`mtimeMs` maximum, manifest version, md5 of the
dependency/build-config serialization). -/
structure ChangeMetadata where
  lastModified : Nat
  packageVersion : String
  dependencyHash : String
deriving Repr, DecidableEq

/-- `QuickCheckResult` of `src/types.ts`. -/
structure QuickCheckResult where
  hasChanges : Bool
  reason : Option String
deriving Repr, DecidableEq

/-- JS truthiness of the optional `reason` string (`quickCheck.reason`). -/
def optStringTruthy : Option String → Bool
  | some s => s != ""
  | none => false

/-- `quickChangeCheck` of `src/cache.ts`. `metaFileExists` is
`fs.existsSync(metadataFile)`; `savedMeta` is the parse of the stored metadata
file (`none` = `JSON.parse` threw); `currentMeta` is the result of
`createChangeMetadata` (`none` = it threw, e.g. unreadable manifest). Either
throw is caught by the surrounding `try` and reported as changed. -/
def quickChangeCheck (metaFileExists : Bool) (savedMeta currentMeta : Option ChangeMetadata) :
    QuickCheckResult :=
  if !metaFileExists then
    { hasChanges := true, reason := some "No metadata file found" }
  else
    match savedMeta, currentMeta with
    | some saved, some current =>
      if saved.packageVersion != current.packageVersion then
        { hasChanges := true, reason := some "Package version changed" }
      else if saved.dependencyHash != current.dependencyHash then
        { hasChanges := true, reason := some "Package dependencies changed" }
      else if current.lastModified > saved.lastModified then
        { hasChanges := true, reason := some "Important files modified" }
      else
        { hasChanges := false, reason := none }
    | _, _ => { hasChanges := true, reason := some "Error reading metadata" }

/-- Outcome of `libraryHasChanged`: the boolean verdict plus the value left in
`hashStore.hash` (the freshly computed composite string). -/
structure HashStoreResult where
  changed : Bool
  storedFresh : String
deriving Repr, DecidableEq

/-- `libraryHasChanged` of `src/cache.ts`. `hashFileExists` is
`fs.existsSync(hashFile)` and `referenceStored` the contents read from it when
it exists (the code substitutes `""` when it does not). `libFiles` is the
sorted listing fed to `computeFileHashes` and `hashOracle` the per-file
checksum oracle. -/
def libraryHasChanged (metaFileExists : Bool) (savedMeta currentMeta : Option ChangeMetadata)
    (hashFileExists : Bool) (referenceStored : String)
    (libFiles : List String) (hashOracle : String → Option String) : HashStoreResult :=
  let quickCheck := quickChangeCheck metaFileExists savedMeta currentMeta
  if quickCheck.hasChanges && optStringTruthy quickCheck.reason then
    let r := computeFileHashes libFiles hashOracle
    { changed := true, storedFresh := r.contents }
  else
    let referenceContents := if hashFileExists then referenceStored else ""
    let r := computeFileHashes libFiles hashOracle
    { changed := r.contents != referenceContents, storedFresh := r.contents }

/- ### Cache-record persist step (`src/core.ts` lines 171-176 and 319-324) -/

/-- The on-disk cache record for one dependency name: the `.hash` file and the
`.metadata.json` file of `.relative-deps-cache`. -/
structure CacheStore where
  hash : Option String
  metadata : Option ChangeMetadata
deriving Repr, DecidableEq

/-- The persist step executed after a successful build/pack/install:
`fs.writeFileSync(hashStore.file, hashStore.hash)` followed, when
`hashStore.metadataFile` is truthy, by `createChangeMetadata` and
`fs.writeFileSync(metadataFile, ...)`. `hashWriteOk`/`metaWriteOk` model the
two writes succeeding; `metaCompute = none` models `createChangeMetadata`
throwing. Returns the resulting store and whether the step ran to completion
(an exception anywhere aborts the rest of the sequence). -/
def persistCacheRecord (st : CacheStore) (newHash : String) (metadataFileSet : Bool)
    (hashWriteOk : Bool) (metaCompute : Option ChangeMetadata) (metaWriteOk : Bool) :
    CacheStore × Bool :=
  if !hashWriteOk then (st, false)
  else
    let st1 : CacheStore := { st with hash := some newHash }
    if !metadataFileSet then (st1, true)
    else
      match metaCompute with
      | none => (st1, false)
      | some m =>
        if !metaWriteOk then (st1, false)
        else ({ st1 with metadata := some m }, true)

/- ### Dependency graph builder (`src/core.ts` `buildDependencyGraph`) -/

/-- `PackageTask` of `src/core.ts`. -/
structure PackageTask where
  name : String
  libDir : String
  dependencies : List String
deriving Repr, DecidableEq

/-- The dependency sections of a successfully parsed manifest; only their key
lists are observable in `buildDependencyGraph` (the spread-merged object is
immediately passed to `Object.keys`). -/
structure PackageManifest where
  dependencies : List String
  devDependencies : List String
  peerDependencies : List String
deriving Repr, DecidableEq

/-- Key list of the JS object spread `\x7b...a, ...b\x7d`: the keys of `a` in order,
then the keys of `b` not already present. -/
def mergeKeys (a b : List String) : List String :=
  a ++ b.filter (fun k => !a.contains k)

/-- `Object.keys(allDeps)` for `allDeps = \x7b...dependencies, ...devDependencies,
...peerDependencies\x7d`. -/
def allDepKeys (pkg : PackageManifest) : List String :=
  mergeKeys (mergeKeys pkg.dependencies pkg.devDependencies) pkg.peerDependencies

/-- JS truthiness of `relativeDependencies[depName]`: the lookup must yield a
declared path and that string must be truthy (the empty string is falsy). -/
def lookupTruthy (decls : List (String × String)) (k : String) : Bool :=
  match decls.lookup k with
  | some v => v != ""
  | none => false

/-- `buildDependencyGraph` of `src/core.ts`. `decls` is
`Object.entries(relativeDependencies)` in declaration order; `resolve` models
`path.resolve(targetDir, relativePath)`; `readPkg` models reading and parsing
`libDir/package.json` (`none` = missing file or caught parse error, giving an
empty edge set). -/
def buildDependencyGraph (decls : List (String × String))
    (readPkg : String → Option PackageManifest) (resolve : String → String) :
    List PackageTask :=
  decls.map (fun d =>
    let libDir := resolve d.2
    let dependencies :=
      match readPkg libDir with
      | some pkg => (allDepKeys pkg).filter (fun depName => lookupTruthy decls depName)
      | none => []
    { name := d.1, libDir := libDir, dependencies := dependencies })

/- ### Topological sort (`src/core.ts` `topologicalSort`) -/

/-- State of the depth-first traversal: the mutable `visited` and `visiting`
sets, the `result` list, and the names for which the circular-dependency
warning was printed. -/
structure SortState where
  visited : List String
  visiting : List String
  result : List PackageTask
  warnings : List String
deriving Repr, DecidableEq

/-- The recursive `visit` of `topologicalSort`, fuelled: processes a worklist of
task names; visiting a name pushes it on `visiting`, recurses into its
dependencies that are present in the task map, appends the task to `result`,
marks it `visited`, and pops `visiting`; re-entering a name on `visiting` emits
a warning and returns (the cycle edge is dropped). Fuel only bounds recursion
depth/length and is chosen large enough to never run out. -/
def visitAux (tm : List (String × PackageTask)) : Nat → List String → SortState → SortState
  | 0, _, st => st
  | _ + 1, [], st => st
  | fuel + 1, name :: rest, st =>
    let st1 :=
      if st.visited.contains name then st
      else if st.visiting.contains name then
        { st with warnings := st.warnings ++ [name] }
      else
        match tm.lookup name with
        | some task =>
          let stv := { st with visiting := st.visiting ++ [name] }
          let std := visitAux tm fuel (task.dependencies.filter (fun d => (tm.lookup d).isSome)) stv
          let str := { std with result := std.result ++ [task], visited := std.visited ++ [name] }
          { str with visiting := str.visiting.filter (fun v => v != name) }
        | none => st
    visitAux tm fuel rest st1

/-- Fuel bound for `visitAux`: at most `n` expansions, each pushing at most `n`
dependency names, plus the `n` top-level names. -/
def sortFuel (tasks : List PackageTask) : Nat :=
  (tasks.length + 1) * (tasks.length + 1)

/-- `topologicalSort` of `src/core.ts`: returns the ordered task list and the
list of circular-dependency warnings. -/
def topologicalSort (tasks : List PackageTask) : List PackageTask × List String :=
  let tm := tasks.map (fun t => (t.name, t))
  let st := visitAux tm (sortFuel tasks) (tasks.map (fun t => t.name))
    { visited := [], visiting := [], result := [], warnings := [] }
  (st.result, st.warnings)

/- ### Per-dependency processing environment -/

/-- Abstract outcome environment for one dependency, read by both execution
modes: whether the resolved target directory exists, whether the name is also a
regular/dev dependency of the consuming project, the verdict of
`force || libraryHasChanged(...)`, and whether the build/pack/install plus
cache writes run without throwing. -/
structure DepEnv where
  dirExists : Bool
  regularDep : Bool
  hasChanges : Bool
  execOk : Bool
deriving Repr, DecidableEq

/-- The failure condition of `processTask` for an existing directory: the
executor path ran (changes were detected) and threw. -/
def taskFails (env : String → DepEnv) (t : PackageTask) : Bool :=
  (env t.name).hasChanges && !(env t.name).execOk

/- ### Parallel scheduler (`src/core.ts` `processPackagesInParallel`) -/

/-- Scheduler state: the `completed` set, the aggregated `errors`, and the
order in which `processTask` was invoked (`started`). -/
structure SchedSt where
  completed : List String
  errors : List String
  started : List String
deriving Repr, DecidableEq

/-- `Set.add` on the `completed` set. -/
def addCompleted (c : List String) (n : String) : List String :=
  if c.contains n then c else c ++ [n]

/-- Error message pushed by the `catch` of `processTask`. -/
def failMsg (name : String) : String := "Failed to process " ++ name

/-- `processTask` of `processPackagesInParallel`, as a state update. A missing
directory with a regular-dependency fallback warns and returns early without
marking the task completed; a missing directory without a fallback throws; a
throwing executor records an error; in the last two cases the task is marked
completed to unblock dependents. -/
def processTask (env : String → DepEnv) (st : SchedSt) (t : PackageTask) : SchedSt :=
  let e := env t.name
  let st := { st with started := st.started ++ [t.name] }
  if !e.dirExists then
    if e.regularDep then st
    else { st with errors := st.errors ++ [failMsg t.name],
                   completed := addCompleted st.completed t.name }
  else if e.hasChanges && !e.execOk then
    { st with errors := st.errors ++ [failMsg t.name],
              completed := addCompleted st.completed t.name }
  else
    { st with completed := addCompleted st.completed t.name }

/-- Final outcome of `processPackagesInParallel`: normal return, `process.exit(1)`
after aggregating errors, the thrown stuck-resolution error (with, per stuck
task, the dependencies it still waits on), or fuel exhaustion (models a run
that never makes progress). -/
inductive RunResult where
  | ok (st : SchedSt)
  | failed (st : SchedSt)
  | stuck (remaining : List (String × List String)) (st : SchedSt)
  | fuelOut (st : SchedSt)
deriving Repr, DecidableEq

/-- The wave loop of `processPackagesInParallel` (deterministic projection: a
wave of up to `maxConcurrency` ready tasks is started and runs to completion
before the ready set is re-evaluated; with `maxConcurrency = 1` this coincides
exactly with the code's interleaving). Mirrors the loop condition
`completed.size < tasks.length && errors.length === 0`, the ready filter, the
stuck-state throw, and the final error aggregation. -/
def schedLoop (tasks : List PackageTask) (env : String → DepEnv) (maxConcurrency : Nat) :
    Nat → SchedSt → RunResult
  | 0, st => .fuelOut st
  | fuel + 1, st =>
    if st.completed.length < tasks.length ∧ st.errors = [] then
      let readyTasks := tasks.filter (fun t =>
        !st.completed.contains t.name && t.dependencies.all (fun d => st.completed.contains d))
      match readyTasks with
      | [] =>
        .stuck ((tasks.filter (fun t => !st.completed.contains t.name)).map
          (fun t => (t.name, t.dependencies.filter (fun d => !st.completed.contains d)))) st
      | _ :: _ =>
        let tasksToStart := readyTasks.take maxConcurrency
        schedLoop tasks env maxConcurrency fuel (tasksToStart.foldl (processTask env) st)
    else
      if st.errors = [] then .ok st else .failed st

/-- `processPackagesInParallel` on an already-sorted task list. -/
def processPackagesInParallel (tasks : List PackageTask) (env : String → DepEnv)
    (maxConcurrency : Nat) : RunResult :=
  schedLoop tasks env maxConcurrency (tasks.length + 1)
    { completed := [], errors := [], started := [] }

/-- Dispatch condition of `installRelativeDeps`:
`parallel && Object.keys(relativeDependencies).length > 1`. -/
def usesParallelPath (parallel : Bool) (declCount : Nat) : Bool :=
  parallel && decide (declCount > 1)

/- ### Sequential mode (`src/core.ts` `installRelativeDeps`, original logic) -/

/-- Outcome of the sequential loop: `ok` for a normal return (exit status 0,
including the early `return` on a missing directory with fallback), `exited`
for `process.exit(1)`; both carry the names checked so far, in order. -/
inductive SeqResult where
  | ok (checked : List String)
  | exited (checked : List String)
deriving Repr, DecidableEq

/-- The sequential `for (const name of depNames)` loop of `installRelativeDeps`.
Each iteration logs `Checking name` (recorded in `checked`), then: a missing
directory returns from the whole function when the name is also a regular/dev
dependency and exits with status 1 otherwise; a throwing executor exits with
status 1; otherwise the loop continues with the next declared name. -/
def seqRun (env : String → DepEnv) : List String → List String → SeqResult
  | [], checked => .ok checked
  | name :: rest, checked =>
    let e := env name
    let checked := checked ++ [name]
    if !e.dirExists then
      if e.regularDep then .ok checked else .exited checked
    else if e.hasChanges && !e.execOk then .exited checked
    else seqRun env rest checked

/-- Sequential `installRelativeDeps` over the declared names. -/
def installRelativeDepsSequential (env : String → DepEnv) (depNames : List String) : SeqResult :=
  seqRun env depNames []

/- ### Helper lemmas -/

theorem findFiles_sorted (l : List String) : List.Sorted fileOrder (findFiles l) :=
  List.sorted_insertionSort fileOrder l

theorem findFiles_perm (l : List String) : (findFiles l).Perm l :=
  List.perm_insertionSort fileOrder l

theorem findFiles_eq_of_perm {l1 l2 : List String} (h : l1.Perm l2) :
    findFiles l1 = findFiles l2 :=
  List.eq_of_perm_of_sorted ((findFiles_perm l1).trans (h.trans (findFiles_perm l2).symm))
    (findFiles_sorted l1) (findFiles_sorted l2)

theorem joinLines_length_le (l : String) (ls : List String) :
    l.length ≤ (joinLines (l :: ls)).length := by
  cases ls with
  | nil => simp [joinLines]
  | cons a as =>
    have h1 : joinLines (l :: a :: as) = l ++ "\n" ++ joinLines (a :: as) := rfl
    rw [h1, String.length_append, String.length_append]
    omega

theorem computeFileHashes_contents_ne_empty (f : String) (fs : List String)
    (hashOracle : String → Option String) :
    (computeFileHashes (f :: fs) hashOracle).contents ≠ "" := by
  intro h
  have hline : (((hashOracle f).getD "ERROR") ++ " " ++ f).length ≤
      (computeFileHashes (f :: fs) hashOracle).contents.length := by
    have := joinLines_length_le (((hashOracle f).getD "ERROR") ++ " " ++ f)
      (hashLines fs hashOracle)
    simpa [computeFileHashes, hashLines] using this
  rw [h] at hline
  rw [String.length_append, String.length_append] at hline
  have hsp : (" " : String).length = 1 := rfl
  have hempty : ("" : String).length = 0 := rfl
  omega

/-- For every input of `quickChangeCheck`, the `reason` string is truthy exactly
when `hasChanges` is set (every reported reason is a non-empty literal). -/
theorem quickChangeCheck_reason_truthy (metaFileExists : Bool)
    (savedMeta currentMeta : Option ChangeMetadata) :
    optStringTruthy (quickChangeCheck metaFileExists savedMeta currentMeta).reason =
      (quickChangeCheck metaFileExists savedMeta currentMeta).hasChanges := by
  cases metaFileExists <;> rcases savedMeta with _ | s <;> rcases currentMeta with _ | c <;>
    simp [quickChangeCheck, optStringTruthy] <;> split_ifs <;>
    simp [optStringTruthy]

/- ### Claim theorems -/

/-- C7: fingerprinting the same tree twice produces byte-identical composite
strings regardless of filesystem traversal order: `findFiles` canonicalizes the
raw globby listing by lexicographic sort, and the composite is the
`hash path` lines joined in that sorted order; the whole fingerprint is a
function of the relative paths and their content hashes only. -/
theorem fingerprint_deterministic (hashOracle : String → Option String)
    (l1 l2 : List String) (h : l1.Perm l2) :
    List.Sorted fileOrder (findFiles l1) ∧
    findFiles l1 = findFiles l2 ∧
    computeFileHashes (findFiles l1) hashOracle = computeFileHashes (findFiles l2) hashOracle ∧
    (computeFileHashes (findFiles l1) hashOracle).contents =
      joinLines (hashLines (findFiles l1) hashOracle) := by
  have he : findFiles l1 = findFiles l2 := findFiles_eq_of_perm h
  exact ⟨findFiles_sorted l1, he, by rw [he], rfl⟩

/-- Witness for C7 at a concrete two-element listing given in two traversal
orders. -/
theorem fingerprint_deterministic_witness :
    (["src/b.ts", "src/a.ts"] : List String).Perm ["src/a.ts", "src/b.ts"] ∧
    (List.Sorted fileOrder (findFiles ["src/b.ts", "src/a.ts"]) ∧
      findFiles ["src/b.ts", "src/a.ts"] = findFiles ["src/a.ts", "src/b.ts"] ∧
      computeFileHashes (findFiles ["src/b.ts", "src/a.ts"]) (fun f => some ("h" ++ f)) =
        computeFileHashes (findFiles ["src/a.ts", "src/b.ts"]) (fun f => some ("h" ++ f)) ∧
      (computeFileHashes (findFiles ["src/b.ts", "src/a.ts"]) (fun f => some ("h" ++ f))).contents =
        joinLines (hashLines (findFiles ["src/b.ts", "src/a.ts"]) (fun f => some ("h" ++ f)))) :=
  ⟨by decide, fingerprint_deterministic (fun f => some ("h" ++ f))
    ["src/b.ts", "src/a.ts"] ["src/a.ts", "src/b.ts"] (by decide)⟩

/-- C8: `computeFileHashes` is total under per-file hash failures: a file whose
hashing throws contributes the sentinel line `ERROR path` to the composite
and is reported in `changedFiles`; the composite is still produced as the
joined lines of every listed file. -/
theorem computeFileHashes_error_sentinel (libFiles : List String)
    (hashOracle : String → Option String) (f : String)
    (hmem : f ∈ libFiles) (hfail : hashOracle f = none) :
    f ∈ (computeFileHashes libFiles hashOracle).changedFiles ∧
    ("ERROR" ++ " " ++ f) ∈ hashLines libFiles hashOracle ∧
    (computeFileHashes libFiles hashOracle).contents =
      joinLines (hashLines libFiles hashOracle) := by
  refine ⟨?_, ?_, rfl⟩
  · simp [computeFileHashes, List.mem_filter, hmem, hfail]
  · simp only [hashLines, List.mem_map]
    exact ⟨f, hmem, by simp [hfail]⟩

/-- Witness for C8: a two-file listing whose second file cannot be hashed. -/
theorem computeFileHashes_error_sentinel_witness :
    "bad.ts" ∈ (["a.ts", "bad.ts"] : List String) ∧
    (fun f => if f == "a.ts" then some "h1" else none) "bad.ts" = none ∧
    ("bad.ts" ∈ (computeFileHashes ["a.ts", "bad.ts"]
        (fun f => if f == "a.ts" then some "h1" else none)).changedFiles ∧
      ("ERROR" ++ " " ++ "bad.ts") ∈ hashLines ["a.ts", "bad.ts"]
        (fun f => if f == "a.ts" then some "h1" else none) ∧
      (computeFileHashes ["a.ts", "bad.ts"]
          (fun f => if f == "a.ts" then some "h1" else none)).contents =
        joinLines (hashLines ["a.ts", "bad.ts"]
          (fun f => if f == "a.ts" then some "h1" else none))) :=
  ⟨by decide, by decide, computeFileHashes_error_sentinel ["a.ts", "bad.ts"]
    (fun f => if f == "a.ts" then some "h1" else none) "bad.ts" (by decide) (by decide)⟩

/-- C4 counterexample: the persist step is not atomic. With the metadata file
path set, a successful hash write followed by a throwing
`createChangeMetadata` (e.g. the manifest became unreadable after the build)
leaves the fingerprint persisted while no metadata snapshot is written — the
pair is NOT written together-or-not-at-all. -/
theorem persistCacheRecord_partial_cex :
    persistCacheRecord { hash := none, metadata := none } "newhash" true true none true =
      ({ hash := some "newhash", metadata := none }, false) := rfl

/-- C4 amended: the `CacheRecord` is persisted by two separate sequential
writes, fingerprint first and metadata second. A failure before the hash write
leaves the store untouched; completing the step with the metadata path set
writes both parts; the metadata is never updated without the fresh
fingerprint; but a failure between the two writes leaves the fingerprint
persisted without its matching metadata snapshot (see the counterexample). -/
theorem persistCacheRecord_write_order (st : CacheStore) (newHash : String)
    (metadataFileSet hashWriteOk : Bool) (metaCompute : Option ChangeMetadata)
    (metaWriteOk : Bool) :
    (hashWriteOk = false →
      persistCacheRecord st newHash metadataFileSet hashWriteOk metaCompute metaWriteOk =
        (st, false)) ∧
    ((persistCacheRecord st newHash metadataFileSet hashWriteOk metaCompute metaWriteOk).2 = true →
      (persistCacheRecord st newHash metadataFileSet hashWriteOk metaCompute metaWriteOk).1.hash =
        some newHash ∧
      (metadataFileSet = true →
        (persistCacheRecord st newHash metadataFileSet hashWriteOk
          metaCompute metaWriteOk).1.metadata = metaCompute)) ∧
    ((persistCacheRecord st newHash metadataFileSet hashWriteOk
        metaCompute metaWriteOk).1.metadata ≠ st.metadata →
      (persistCacheRecord st newHash metadataFileSet hashWriteOk metaCompute metaWriteOk).1.hash =
        some newHash) ∧
    ((persistCacheRecord st newHash metadataFileSet hashWriteOk metaCompute metaWriteOk).2 = false →
      (persistCacheRecord st newHash metadataFileSet hashWriteOk
        metaCompute metaWriteOk).1.metadata = st.metadata) := by
  cases hashWriteOk <;> cases metadataFileSet <;> rcases metaCompute with _ | m <;>
    cases metaWriteOk <;> simp [persistCacheRecord]

/-- Witness for C4 amended: a fully successful persist writes both parts. -/
theorem persistCacheRecord_write_order_witness :
    ((true : Bool) = false →
      persistCacheRecord { hash := none, metadata := none } "h" true true
        (some { lastModified := 1, packageVersion := "1.0.0", dependencyHash := "d" }) true =
        ({ hash := none, metadata := none }, false)) ∧
    ((persistCacheRecord { hash := none, metadata := none } "h" true true
        (some { lastModified := 1, packageVersion := "1.0.0", dependencyHash := "d" }) true).2 =
          true →
      (persistCacheRecord { hash := none, metadata := none } "h" true true
        (some { lastModified := 1, packageVersion := "1.0.0", dependencyHash := "d" })
          true).1.hash = some "h" ∧
      ((true : Bool) = true →
        (persistCacheRecord { hash := none, metadata := none } "h" true true
          (some { lastModified := 1, packageVersion := "1.0.0", dependencyHash := "d" })
            true).1.metadata =
          some { lastModified := 1, packageVersion := "1.0.0", dependencyHash := "d" })) ∧
    ((persistCacheRecord { hash := none, metadata := none } "h" true true
        (some { lastModified := 1, packageVersion := "1.0.0", dependencyHash := "d" })
          true).1.metadata ≠ none →
      (persistCacheRecord { hash := none, metadata := none } "h" true true
        (some { lastModified := 1, packageVersion := "1.0.0", dependencyHash := "d" })
          true).1.hash = some "h") ∧
    ((persistCacheRecord { hash := none, metadata := none } "h" true true
        (some { lastModified := 1, packageVersion := "1.0.0", dependencyHash := "d" }) true).2 =
          false →
      (persistCacheRecord { hash := none, metadata := none } "h" true true
        (some { lastModified := 1, packageVersion := "1.0.0", dependencyHash := "d" })
          true).1.metadata = none) :=
  persistCacheRecord_write_order { hash := none, metadata := none } "h" true true
    (some { lastModified := 1, packageVersion := "1.0.0", dependencyHash := "d" }) true

/-- C5 counterexample: a record whose fingerprint (hash) file is absent is not
always reported CHANGED. With the metadata file present and matching the
current snapshot and an empty included-file list, the missing hash file is
read as the empty string, which equals the composite of the empty tree, so
`libraryHasChanged` reports UNCHANGED. -/
theorem missing_hash_empty_tree_cex :
    (libraryHasChanged true
        (some { lastModified := 5, packageVersion := "1.0.0", dependencyHash := "h" })
        (some { lastModified := 5, packageVersion := "1.0.0", dependencyHash := "h" })
        false "stored" [] (fun _ => none)).changed = false := rfl

/-- C5 amended: a missing metadata file, an unparsable metadata file, a
throwing current-snapshot computation, and — provided at least one file is
currently included — a missing fingerprint file are all reported CHANGED
rather than trusted or propagated as errors. (With an empty included-file
list, a missing hash file is read as the empty string, which matches the
empty composite, so that corner reports UNCHANGED; see the counterexample.) -/
theorem missing_record_reports_changed (savedMeta currentMeta : Option ChangeMetadata)
    (metaFileExists hashFileExists : Bool) (referenceStored : String)
    (libFiles : List String) (hashOracle : String → Option String) :
    (metaFileExists = false →
      (libraryHasChanged metaFileExists savedMeta currentMeta hashFileExists referenceStored
        libFiles hashOracle).changed = true) ∧
    (savedMeta = none →
      (libraryHasChanged metaFileExists savedMeta currentMeta hashFileExists referenceStored
        libFiles hashOracle).changed = true) ∧
    (currentMeta = none →
      (libraryHasChanged metaFileExists savedMeta currentMeta hashFileExists referenceStored
        libFiles hashOracle).changed = true) ∧
    (hashFileExists = false → libFiles ≠ [] →
      (libraryHasChanged metaFileExists savedMeta currentMeta hashFileExists referenceStored
        libFiles hashOracle).changed = true) := by
  refine ⟨?_, ?_, ?_, ?_⟩
  · rintro rfl
    simp [libraryHasChanged, quickChangeCheck, optStringTruthy]
  · rintro rfl
    cases metaFileExists <;> rcases currentMeta with _ | c <;>
      simp [libraryHasChanged, quickChangeCheck, optStringTruthy]
  · rintro rfl
    cases metaFileExists <;> rcases savedMeta with _ | s <;>
      simp [libraryHasChanged, quickChangeCheck, optStringTruthy]
  · intro hh hne
    obtain ⟨f, fs, rfl⟩ : ∃ f fs, libFiles = f :: fs := by
      cases libFiles with
      | nil => exact absurd rfl hne
      | cons f fs => exact ⟨f, fs, rfl⟩
    subst hh
    have hcne := computeFileHashes_contents_ne_empty f fs hashOracle
    unfold libraryHasChanged
    cases hq : (quickChangeCheck metaFileExists savedMeta currentMeta).hasChanges &&
        optStringTruthy (quickChangeCheck metaFileExists savedMeta currentMeta).reason <;>
      simp [hq, bne_iff_ne, hcne]

/-- Witness for C5 amended at a concrete state: metadata file absent,
unparsable stored metadata, throwing current snapshot, and hash file absent
over a one-file tree, each reported CHANGED. -/
theorem missing_record_reports_changed_witness :
    (libraryHasChanged false none none false "" ["a.ts"] (fun _ => some "h")).changed = true ∧
    (libraryHasChanged true none
      (some { lastModified := 1, packageVersion := "1.0.0", dependencyHash := "d" })
      true "r" ["a.ts"] (fun _ => some "h")).changed = true ∧
    (libraryHasChanged true
      (some { lastModified := 1, packageVersion := "1.0.0", dependencyHash := "d" })
      none true "r" ["a.ts"] (fun _ => some "h")).changed = true ∧
    (libraryHasChanged true
      (some { lastModified := 1, packageVersion := "1.0.0", dependencyHash := "d" })
      (some { lastModified := 1, packageVersion := "1.0.0", dependencyHash := "d" })
      false "r" ["a.ts"] (fun _ => some "h")).changed = true :=
  ⟨(missing_record_reports_changed none none false false "" ["a.ts"] (fun _ => some "h")).1 rfl,
   (missing_record_reports_changed none
      (some { lastModified := 1, packageVersion := "1.0.0", dependencyHash := "d" })
      true true "r" ["a.ts"] (fun _ => some "h")).2.1 rfl,
   (missing_record_reports_changed
      (some { lastModified := 1, packageVersion := "1.0.0", dependencyHash := "d" })
      none true true "r" ["a.ts"] (fun _ => some "h")).2.2.1 rfl,
   (missing_record_reports_changed
      (some { lastModified := 1, packageVersion := "1.0.0", dependencyHash := "d" })
      (some { lastModified := 1, packageVersion := "1.0.0", dependencyHash := "d" })
      true false "r" ["a.ts"] (fun _ => some "h")).2.2.2 rfl (by decide)⟩

/-- C6: with a readable cache record (metadata file present and parsable,
current snapshot computable, hash file present), the decision of
`libraryHasChanged` is: CHANGED whenever the metadata fast path reports a
change (version differs, dependency/build-config hash differs, or the current
`lastModified` exceeds the stored one), and otherwise CHANGED exactly when the
freshly computed composite differs byte-for-byte from the stored one; the
fresh composite is computed and left in the hash store on every path. -/
theorem libraryHasChanged_decision (s c : ChangeMetadata) (referenceStored : String)
    (libFiles : List String) (hashOracle : String → Option String) :
    (libraryHasChanged true (some s) (some c) true referenceStored
        libFiles hashOracle).storedFresh = (computeFileHashes libFiles hashOracle).contents ∧
    (libraryHasChanged true (some s) (some c) true referenceStored
        libFiles hashOracle).changed =
      ((quickChangeCheck true (some s) (some c)).hasChanges ||
        ((computeFileHashes libFiles hashOracle).contents != referenceStored)) ∧
    (quickChangeCheck true (some s) (some c)).hasChanges =
      ((s.packageVersion != c.packageVersion) || (s.dependencyHash != c.dependencyHash) ||
        decide (c.lastModified > s.lastModified)) := by
  have htr := quickChangeCheck_reason_truthy true (some s) (some c)
  refine ⟨?_, ?_, ?_⟩
  · unfold libraryHasChanged
    cases hq : (quickChangeCheck true (some s) (some c)).hasChanges &&
        optStringTruthy (quickChangeCheck true (some s) (some c)).reason <;> simp [hq]
  · unfold libraryHasChanged
    cases hq : (quickChangeCheck true (some s) (some c)).hasChanges <;>
      rw [hq] at htr <;> simp [htr, hq]
  · simp only [quickChangeCheck, Bool.not_true, Bool.false_eq_true, if_false]
    split_ifs <;> simp_all

theorem lookupTruthy_iff (decls : List (String × String)) (k : String) :
    lookupTruthy decls k = true ↔ ∃ p, decls.lookup k = some p ∧ p ≠ "" := by
  unfold lookupTruthy
  cases h : decls.lookup k <;> simp [bne_iff_ne]

theorem mem_mergeKeys (a b : List String) (d : String) :
    d ∈ mergeKeys a b ↔ d ∈ a ∨ d ∈ b := by
  simp only [mergeKeys, List.mem_append, List.mem_filter, Bool.not_eq_true', List.elem_iff]
  constructor
  · rintro (h | ⟨h, _⟩)
    · exact Or.inl h
    · exact Or.inr h
  · rintro (h | h)
    · exact Or.inl h
    · by_cases hm : d ∈ a
      · exact Or.inl hm
      · refine Or.inr ⟨h, ?_⟩
        cases hc : a.contains d
        · rfl
        · exact absurd (List.elem_iff.mp hc) hm

theorem mem_allDepKeys (pkg : PackageManifest) (d : String) :
    d ∈ allDepKeys pkg ↔
      d ∈ pkg.dependencies ∨ d ∈ pkg.devDependencies ∨ d ∈ pkg.peerDependencies := by
  simp [allDepKeys, mem_mergeKeys, or_assoc]

/-- C9 counterexample: an edge is NOT created for every declared dependency
appearing in the manifest. With `B` declared under the empty relative path,
`relativeDependencies["B"]` is the empty string — falsy in JS — so although `B`
is in the declaration set and appears in `A`'s dependencies, `A` gets no edge
to `B`. -/
theorem graph_empty_path_cex :
    buildDependencyGraph [("A", "pa"), ("B", "")]
        (fun d => if d == "pa" then
          some { dependencies := ["B"], devDependencies := [], peerDependencies := [] }
          else none)
        (fun r => r) =
      [{ name := "A", libDir := "pa", dependencies := [] },
       { name := "B", libDir := "", dependencies := [] }] := rfl

/-- C9 amended: in the graph produced by `buildDependencyGraph`, a task's edge
set is empty when its manifest is missing or unreadable, and otherwise
contains `d` iff `d` appears in the manifest's combined
dependencies/devDependencies/peerDependencies keys AND `d` is declared as a
local dependency with a truthy (non-empty) relative path. Undeclared names
never produce an edge; a declared name with an empty-string path also produces
no edge (JS falsiness — see the counterexample). -/
theorem buildDependencyGraph_edge_iff (decls : List (String × String))
    (readPkg : String → Option PackageManifest) (resolve : String → String)
    (t : PackageTask) (ht : t ∈ buildDependencyGraph decls readPkg resolve) :
    (readPkg t.libDir = none → t.dependencies = []) ∧
    (∀ pkg, readPkg t.libDir = some pkg → ∀ d,
      (d ∈ t.dependencies ↔
        ((d ∈ pkg.dependencies ∨ d ∈ pkg.devDependencies ∨ d ∈ pkg.peerDependencies) ∧
          ∃ p, decls.lookup d = some p ∧ p ≠ ""))) := by
  simp only [buildDependencyGraph, List.mem_map] at ht
  obtain ⟨entry, hentry, rfl⟩ := ht
  constructor
  · intro hnone
    simp only at hnone ⊢
    rw [hnone]
  · intro pkg hsome d
    simp only at hsome ⊢
    rw [hsome]
    simp only [List.mem_filter]
    rw [mem_allDepKeys, lookupTruthy_iff]

/-- Witness for C9 amended at a concrete declaration set: `A` declares edges
exactly to the declared names with truthy paths among its manifest keys. -/
theorem buildDependencyGraph_edge_iff_witness :
    ({ name := "A", libDir := "pa", dependencies := ["B"] } : PackageTask) ∈
      buildDependencyGraph [("A", "pa"), ("B", "pb")]
        (fun dd => if dd == "pa" then
          some { dependencies := ["B", "ext"], devDependencies := [], peerDependencies := [] }
          else if dd == "pb" then
          some { dependencies := [], devDependencies := [], peerDependencies := [] }
          else none)
        (fun r => r) ∧
    (((fun dd => if dd == "pa" then
        some { dependencies := ["B", "ext"], devDependencies := [],
               peerDependencies := [] } else if dd == "pb" then
        some { dependencies := [], devDependencies := [], peerDependencies := [] }
        else none) :
          String → Option PackageManifest)
        ({ name := "A", libDir := "pa", dependencies := ["B"] } : PackageTask).libDir = none →
      ({ name := "A", libDir := "pa", dependencies := ["B"] } : PackageTask).dependencies = []) ∧
    (∀ pkg,
      ((fun dd => if dd == "pa" then
        some { dependencies := ["B", "ext"], devDependencies := [],
               peerDependencies := [] } else if dd == "pb" then
        some { dependencies := [], devDependencies := [], peerDependencies := [] }
        else none) :
          String → Option PackageManifest)
        ({ name := "A", libDir := "pa", dependencies := ["B"] } : PackageTask).libDir =
          some pkg → ∀ d,
      (d ∈ ({ name := "A", libDir := "pa", dependencies := ["B"] } : PackageTask).dependencies ↔
        ((d ∈ pkg.dependencies ∨ d ∈ pkg.devDependencies ∨ d ∈ pkg.peerDependencies) ∧
          ∃ p, ([("A", "pa"), ("B", "pb")] : List (String × String)).lookup d = some p ∧
            p ≠ ""))) := by
  refine ⟨by decide, ?_⟩
  exact buildDependencyGraph_edge_iff [("A", "pa"), ("B", "pb")]
    (fun dd => if dd == "pa" then
      some { dependencies := ["B", "ext"], devDependencies := [], peerDependencies := [] }
      else if dd == "pb" then
      some { dependencies := [], devDependencies := [], peerDependencies := [] }
      else none)
    (fun r => r)
    { name := "A", libDir := "pa", dependencies := ["B"] } (by decide)

/-- The sequential loop on reaching a missing-directory name that has a
regular-dependency fallback returns from the whole function after checking the
already-processed names and that name. -/
theorem seqRun_missing_dir (env : String → DepEnv) (post : List String) (name : String)
    (hdir : (env name).dirExists = false) (hreg : (env name).regularDep = true) :
    ∀ (p acc : List String),
      (∀ d ∈ p, (env d).dirExists = true ∧ ((env d).hasChanges && !(env d).execOk) = false) →
      seqRun env (p ++ name :: post) acc = .ok ((acc ++ p) ++ [name]) := by
  intro p
  induction p with
  | nil =>
    intro acc _
    simp [seqRun, hdir, hreg]
  | cons d p ih =>
    intro acc h
    have hd := h d (by simp)
    have hrec := ih (acc ++ [d]) (fun x hx => h x (by simp [hx]))
    simp only [List.cons_append, seqRun, List.append_eq, hd.1, hd.2, Bool.not_true,
      Bool.false_eq_true, if_false] at hrec ⊢
    rw [hrec]
    simp

/-- C10: in sequential mode, when a declared dependency's target directory is
missing but the name is also a regular/dev dependency of the consuming
project, the loop `return`s from the whole function: every earlier declared
dependency has been checked, the missing-directory one is the last name
checked, every later declared dependency is silently skipped, and the run
ends with a normal (non-error) status. -/
theorem sequential_missing_dir_skips_rest (env : String → DepEnv)
    (pre post : List String) (name : String)
    (hpre : ∀ d ∈ pre,
      (env d).dirExists = true ∧ ((env d).hasChanges && !(env d).execOk) = false)
    (hdir : (env name).dirExists = false) (hreg : (env name).regularDep = true) :
    installRelativeDepsSequential env (pre ++ name :: post) = .ok (pre ++ [name]) := by
  unfold installRelativeDepsSequential
  simpa using seqRun_missing_dir env post name hdir hreg pre [] hpre

/-- Witness for C10: declarations `[P, X, Q]` with `X`'s directory missing but
declared as a regular dependency: `P` and `X` are checked, `Q` is skipped, the
run ends normally. -/
theorem sequential_missing_dir_skips_rest_witness :
    (∀ d ∈ (["P"] : List String),
      ((fun n => if n == "X" then
          { dirExists := false, regularDep := true, hasChanges := true, execOk := true }
        else
          { dirExists := true, regularDep := true, hasChanges := true,
            execOk := true } : String → DepEnv) d).dirExists = true ∧
      ((((fun n => if n == "X" then
          { dirExists := false, regularDep := true, hasChanges := true, execOk := true }
        else
          { dirExists := true, regularDep := true, hasChanges := true,
            execOk := true } : String → DepEnv) d).hasChanges &&
        !(((fun n => if n == "X" then
          { dirExists := false, regularDep := true, hasChanges := true, execOk := true }
        else
          { dirExists := true, regularDep := true, hasChanges := true,
            execOk := true } : String → DepEnv) d).execOk)) = false)) ∧
    installRelativeDepsSequential
      (fun n => if n == "X" then
          { dirExists := false, regularDep := true, hasChanges := true, execOk := true }
        else
          { dirExists := true, regularDep := true, hasChanges := true, execOk := true })
      (["P"] ++ "X" :: ["Q"]) = .ok (["P"] ++ ["X"]) :=
  ⟨by decide, sequential_missing_dir_skips_rest
    (fun n => if n == "X" then
        { dirExists := false, regularDep := true, hasChanges := true, execOk := true }
      else
        { dirExists := true, regularDep := true, hasChanges := true, execOk := true })
    ["P"] ["Q"] "X" (by decide) (by decide) (by decide)⟩

theorem contains_eq_true_iff (l : List String) (a : String) : l.contains a = true ↔ a ∈ l :=
  List.elem_iff

theorem contains_eq_false_iff (l : List String) (a : String) : l.contains a = false ↔ a ∉ l := by
  constructor
  · intro h hm
    rw [(contains_eq_true_iff l a).mpr hm] at h
    cases h
  · intro hm
    cases hc : l.contains a
    · rfl
    · exact absurd ((contains_eq_true_iff l a).mp hc) hm

/-- Effect of one wave: folding `processTask` over tasks whose directories
exist and whose names are fresh and distinct appends every name to
`completed` and `started` and one error message per failing task. -/
theorem foldl_processTask_spec (env : String → DepEnv) (ts : List PackageTask) :
    ∀ (st : SchedSt),
      (∀ t ∈ ts, (env t.name).dirExists = true) →
      (∀ t ∈ ts, t.name ∉ st.completed) →
      (ts.map (fun t => t.name)).Nodup →
      ts.foldl (processTask env) st =
        { completed := st.completed ++ ts.map (fun t => t.name),
          errors := st.errors ++
            (ts.filter (fun t => taskFails env t)).map (fun t => failMsg t.name),
          started := st.started ++ ts.map (fun t => t.name) } := by
  induction ts with
  | nil => intro st _ _ _; simp
  | cons t ts ih =>
    intro st hdir hfresh hnodup
    have hdt := hdir t (by simp)
    have hft : t.name ∉ st.completed := hfresh t (by simp)
    have hadd : addCompleted st.completed t.name = st.completed ++ [t.name] := by
      unfold addCompleted
      rw [(contains_eq_false_iff _ _).mpr hft]
      simp
    have hheadnotin : t.name ∉ ts.map (fun t => t.name) := (List.nodup_cons.mp (by
      simpa using hnodup)).1
    have htailnodup : (ts.map (fun t => t.name)).Nodup := (List.nodup_cons.mp (by
      simpa using hnodup)).2
    have hpt : processTask env st t =
        if taskFails env t then
          { completed := st.completed ++ [t.name], errors := st.errors ++ [failMsg t.name],
            started := st.started ++ [t.name] }
        else
          { completed := st.completed ++ [t.name], errors := st.errors,
            started := st.started ++ [t.name] } := by
      simp only [processTask, taskFails, hdt, Bool.not_true, Bool.false_eq_true, if_false, hadd]
    have hfoldstep : (t :: ts).foldl (processTask env) st =
        ts.foldl (processTask env) (processTask env st t) := rfl
    rw [hfoldstep, hpt]
    have hrest : ∀ (st1 : SchedSt), st1.completed = st.completed ++ [t.name] →
        (∀ x ∈ ts, x.name ∉ st1.completed) := by
      intro st1 hc x hx hmem
      rw [hc] at hmem
      rcases List.mem_append.mp hmem with h | h
      · exact hfresh x (by simp [hx]) h
      · have : x.name ∈ ts.map (fun t => t.name) := List.mem_map.mpr ⟨x, hx, rfl⟩
        rw [List.mem_singleton.mp h] at this
        exact hheadnotin this
    cases hf : taskFails env t
    · simp only [Bool.false_eq_true, if_false]
      rw [ih _ (fun x hx => hdir x (by simp [hx])) (hrest _ rfl) htailnodup]
      simp [hf]
    · simp only [if_pos rfl]
      rw [ih _ (fun x hx => hdir x (by simp [hx])) (hrest _ rfl) htailnodup]
      simp [hf]

/-- One iteration of the scheduler loop when some task is ready. -/
theorem schedLoop_succ_ready (tasks : List PackageTask) (env : String → DepEnv)
    (maxConcurrency fuel : Nat) (st : SchedSt) (r : PackageTask) (rs : List PackageTask)
    (hlt : st.completed.length < tasks.length) (herr : st.errors = [])
    (hready : tasks.filter (fun t => !st.completed.contains t.name &&
        t.dependencies.all (fun d => st.completed.contains d)) = r :: rs) :
    schedLoop tasks env maxConcurrency (fuel + 1) st =
      schedLoop tasks env maxConcurrency fuel
        (((r :: rs).take maxConcurrency).foldl (processTask env) st) := by
  simp only [schedLoop]
  rw [if_pos ⟨hlt, herr⟩, hready]

/-- One iteration of the scheduler loop when the loop condition fails. -/
theorem schedLoop_succ_done (tasks : List PackageTask) (env : String → DepEnv)
    (maxConcurrency fuel : Nat) (st : SchedSt)
    (hcond : ¬(st.completed.length < tasks.length ∧ st.errors = [])) :
    schedLoop tasks env maxConcurrency (fuel + 1) st =
      if st.errors = [] then .ok st else .failed st := by
  simp only [schedLoop]
  rw [if_neg hcond]

theorem lookup_taskMap (tasks : List PackageTask)
    (hnodup : (tasks.map (fun t => t.name)).Nodup) :
    ∀ t ∈ tasks, (tasks.map (fun u => (u.name, u))).lookup t.name = some t := by
  induction tasks with
  | nil => intro t ht; cases ht
  | cons u us ih =>
    intro t ht
    rcases List.mem_cons.mp ht with rfl | hmem
    · simp [List.lookup]
    · have hne : (t.name == u.name) = false := by
        apply beq_eq_false_iff_ne.mpr
        intro he
        have hmm : t.name ∈ us.map (fun t => t.name) := List.mem_map.mpr ⟨t, hmem, rfl⟩
        rw [he] at hmm
        exact (List.nodup_cons.mp (by simpa using hnodup)).1 hmm
      simp only [List.map_cons, List.lookup, hne]
      exact ih (List.nodup_cons.mp (by simpa using hnodup)).2 t hmem

/-- `visitAux` on edge-free tasks with distinct names appends every task, in
worklist order, to the result, with no warnings. -/
theorem visitAux_no_edges (tm : List (String × PackageTask)) :
    ∀ (ts : List PackageTask) (fuel : Nat) (st : SortState),
      (∀ t ∈ ts, tm.lookup t.name = some t ∧ t.dependencies = []) →
      (∀ t ∈ ts, t.name ∉ st.visited) →
      (ts.map (fun t => t.name)).Nodup →
      st.visiting = [] →
      ts.length ≤ fuel →
      visitAux tm fuel (ts.map (fun t => t.name)) st =
        { visited := st.visited ++ ts.map (fun t => t.name), visiting := [],
          result := st.result ++ ts, warnings := st.warnings } := by
  intro ts
  induction ts with
  | nil =>
    intro fuel st _ _ _ hvisiting _
    obtain ⟨v1, v2, v3, v4⟩ := st
    simp only at hvisiting
    subst hvisiting
    cases fuel <;> simp [visitAux]
  | cons t ts ih =>
    intro fuel st hlk hfresh hnodup hvisiting hfuel
    obtain ⟨fl, rfl⟩ : ∃ fl, fuel = fl + 1 := ⟨fuel - 1, by simp at hfuel; omega⟩
    have hlt := hlk t (by simp)
    have hnv : st.visited.contains t.name = false :=
      (contains_eq_false_iff _ _).mpr (hfresh t (by simp))
    have hnvg : st.visiting.contains t.name = false := by rw [hvisiting]; rfl
    have hstep : visitAux tm (fl + 1) ((t :: ts).map (fun t => t.name)) st =
        visitAux tm fl (ts.map (fun t => t.name))
          { visited := st.visited ++ [t.name], visiting := [],
            result := st.result ++ [t], warnings := st.warnings } := by
      simp only [List.map_cons, visitAux, hnv, hnvg, Bool.false_eq_true, if_false, hlt.1]
      rw [hlt.2]
      have hinner : visitAux tm fl (List.filter (fun d => (tm.lookup d).isSome) [])
          { st with visiting := st.visiting ++ [t.name] } =
          { st with visiting := st.visiting ++ [t.name] } := by
        cases fl <;> rfl
      rw [hinner]
      rw [hvisiting]
      simp
    rw [hstep]
    have hrec := ih fl
      { visited := st.visited ++ [t.name], visiting := [],
        result := st.result ++ [t], warnings := st.warnings }
      (fun x hx => hlk x (by simp [hx]))
      (fun x hx hmem => by
        rcases List.mem_append.mp hmem with h | h
        · exact hfresh x (by simp [hx]) h
        · have hxm : x.name ∈ ts.map (fun t => t.name) := List.mem_map.mpr ⟨x, hx, rfl⟩
          rw [List.mem_singleton.mp h] at hxm
          exact (List.nodup_cons.mp (by simpa using hnodup)).1 hxm)
      ((List.nodup_cons.mp (by simpa using hnodup)).2)
      rfl
      (by simp at hfuel; omega)
    rw [hrec]
    simp

/-- `topologicalSort` on edge-free tasks with distinct names is the identity
ordering with no circular-dependency warnings. -/
theorem topologicalSort_no_edges (tasks : List PackageTask)
    (hnodup : (tasks.map (fun t => t.name)).Nodup)
    (hindep : ∀ t ∈ tasks, t.dependencies = []) :
    topologicalSort tasks = (tasks, []) := by
  simp only [topologicalSort]
  rw [visitAux_no_edges (tasks.map (fun u => (u.name, u))) tasks (sortFuel tasks)
    { visited := [], visiting := [], result := [], warnings := [] }
    (fun t ht => ⟨lookup_taskMap tasks hnodup t ht, hindep t ht⟩)
    (fun t _ h => by simp at h)
    hnodup rfl
    (le_trans (Nat.le_succ _) (Nat.le_mul_of_pos_right _ (Nat.succ_pos _)))]
  simp

/-- The sequential loop runs through all names when every name's directory
exists and no executor throws. -/
theorem seqRun_all_ok (env : String → DepEnv) :
    ∀ (names acc : List String),
      (∀ n ∈ names,
        (env n).dirExists = true ∧ ((env n).hasChanges && !(env n).execOk) = false) →
      seqRun env names acc = .ok (acc ++ names) := by
  intro names
  induction names with
  | nil => intro acc _; simp [seqRun]
  | cons n ns ih =>
    intro acc h
    have hn := h n (by simp)
    have hrec := ih (acc ++ [n]) (fun x hx => h x (by simp [hx]))
    simp only [seqRun, List.append_eq, hn.1, hn.2, Bool.not_true, Bool.false_eq_true,
      if_false] at hrec ⊢
    rw [hrec]
    simp

/-- The scheduler loop with ceiling 1 over edge-free, all-succeeding tasks
processes exactly one task per wave, in list order. -/
theorem schedLoop_ceiling_one (env : String → DepEnv) (tasks : List PackageTask)
    (hnodup : (tasks.map (fun t => t.name)).Nodup)
    (hdir : ∀ t ∈ tasks, (env t.name).dirExists = true)
    (hok : ∀ t ∈ tasks, taskFails env t = false)
    (hindep : ∀ t ∈ tasks, t.dependencies = []) :
    ∀ (rest pre : List PackageTask) (fuel : Nat),
      tasks = pre ++ rest → rest.length < fuel →
      schedLoop tasks env 1 fuel
        { completed := pre.map (fun t => t.name), errors := [],
          started := pre.map (fun t => t.name) } =
      .ok { completed := tasks.map (fun t => t.name), errors := [],
            started := tasks.map (fun t => t.name) } := by
  intro rest
  induction rest with
  | nil =>
    intro pre fuel hsplit hfuel
    obtain ⟨fl, rfl⟩ : ∃ fl, fuel = fl + 1 := ⟨fuel - 1, by omega⟩
    rw [schedLoop_succ_done]
    · rw [if_pos rfl]
      subst hsplit
      simp
    · subst hsplit
      simp
  | cons r rest ih =>
    intro pre fuel hsplit hfuel
    obtain ⟨fl, rfl⟩ : ∃ fl, fuel = fl + 1 := ⟨fuel - 1, by omega⟩
    have hdisj : ∀ x ∈ r :: rest, x.name ∉ pre.map (fun t => t.name) := by
      intro x hx hmem
      have hmm : x.name ∈ (r :: rest).map (fun t => t.name) := List.mem_map.mpr ⟨x, hx, rfl⟩
      have hnd : ((pre.map (fun t => t.name)) ++ ((r :: rest).map (fun t => t.name))).Nodup := by
        rw [← List.map_append, ← hsplit]
        exact hnodup
      exact (List.nodup_append.mp hnd).2.2 hmem hmm
    have hready : tasks.filter (fun t => !(pre.map (fun t => t.name)).contains t.name &&
        t.dependencies.all (fun d => (pre.map (fun t => t.name)).contains d)) = r :: rest := by
      rw [hsplit, List.filter_append]
      have h1 : pre.filter (fun t => !(pre.map (fun t => t.name)).contains t.name &&
          t.dependencies.all (fun d => (pre.map (fun t => t.name)).contains d)) = [] := by
        apply List.filter_eq_nil_iff.mpr
        intro t htm
        have hc : (pre.map (fun u => u.name)).contains t.name = true :=
          (contains_eq_true_iff _ _).mpr (List.mem_map.mpr ⟨t, htm, rfl⟩)
        rw [hc]
        simp
      have h2 : (r :: rest).filter (fun t => !(pre.map (fun t => t.name)).contains t.name &&
          t.dependencies.all (fun d => (pre.map (fun t => t.name)).contains d)) = r :: rest := by
        apply List.filter_eq_self.mpr
        intro t htm
        have hc : (pre.map (fun u => u.name)).contains t.name = false :=
          (contains_eq_false_iff _ _).mpr (hdisj t htm)
        have hd : t.dependencies = [] := hindep t (by rw [hsplit]; exact List.mem_append_right _ htm)
        rw [hc, hd]
        simp
      rw [h1, h2, List.nil_append]
    have hlt : (pre.map (fun t => t.name)).length < tasks.length := by
      rw [hsplit]
      simp
    rw [schedLoop_succ_ready tasks env 1 fl _ r rest hlt rfl hready]
    have htake : (r :: rest).take 1 = [r] := by simp
    rw [htake]
    have hrmem : r ∈ tasks := by rw [hsplit]; exact List.mem_append_right _ (by simp)
    have hfold : [r].foldl (processTask env)
        { completed := pre.map (fun t => t.name), errors := [],
          started := pre.map (fun t => t.name) } =
        { completed := (pre ++ [r]).map (fun t => t.name), errors := [],
          started := (pre ++ [r]).map (fun t => t.name) } := by
      have hps : [r].foldl (processTask env)
          { completed := pre.map (fun t => t.name), errors := [],
            started := pre.map (fun t => t.name) } =
          processTask env
            { completed := pre.map (fun t => t.name), errors := [],
              started := pre.map (fun t => t.name) } r := rfl
      rw [hps]
      have hfr := hok r hrmem
      unfold taskFails at hfr
      simp only [processTask, hdir r hrmem, hfr, Bool.not_true, Bool.false_eq_true, if_false,
        addCompleted]
      rw [(contains_eq_false_iff _ _).mpr (hdisj r (by simp))]
      simp
    rw [hfold]
    have := ih (pre ++ [r]) fl (by rw [hsplit]; simp)
      (by simp only [List.length_cons] at hfuel; omega)
    exact this

/-- The scheduler loop with ceiling 1 processes a run of healthy, edge-free
tasks one wave each, reaching the corresponding mid-run state (more tasks are
still pending afterwards). -/
theorem schedLoop_walk_prefix (env : String → DepEnv) (tasks : List PackageTask)
    (hnodup : (tasks.map (fun t => t.name)).Nodup)
    (hindep : ∀ t ∈ tasks, t.dependencies = []) :
    ∀ (todo done rest : List PackageTask) (fuel : Nat),
      tasks = done ++ todo ++ rest → rest ≠ [] →
      (∀ t ∈ todo, (env t.name).dirExists = true ∧ taskFails env t = false) →
      schedLoop tasks env 1 (fuel + todo.length)
        { completed := done.map (fun t => t.name), errors := [],
          started := done.map (fun t => t.name) } =
      schedLoop tasks env 1 fuel
        { completed := (done ++ todo).map (fun t => t.name), errors := [],
          started := (done ++ todo).map (fun t => t.name) } := by
  intro todo
  induction todo with
  | nil =>
    intro done rest fuel _ _ _
    simp
  | cons t todo ih =>
    intro done rest fuel hsplit hrest htodo
    have hsplit2 : tasks = done ++ t :: (todo ++ rest) := by rw [hsplit]; simp
    have hdisj : ∀ x ∈ t :: (todo ++ rest), x.name ∉ done.map (fun u => u.name) := by
      intro x hx hmem
      have hmm : x.name ∈ (t :: (todo ++ rest)).map (fun u => u.name) :=
        List.mem_map.mpr ⟨x, hx, rfl⟩
      have hnd : ((done.map (fun u => u.name)) ++
          ((t :: (todo ++ rest)).map (fun u => u.name))).Nodup := by
        rw [← List.map_append, ← hsplit2]
        exact hnodup
      exact (List.nodup_append.mp hnd).2.2 hmem hmm
    have hready : tasks.filter (fun u => !(done.map (fun t => t.name)).contains u.name &&
        u.dependencies.all (fun d => (done.map (fun t => t.name)).contains d)) =
        t :: (todo ++ rest) := by
      rw [hsplit2, List.filter_append]
      have h1 : done.filter (fun u => !(done.map (fun t => t.name)).contains u.name &&
          u.dependencies.all (fun d => (done.map (fun t => t.name)).contains d)) = [] := by
        apply List.filter_eq_nil_iff.mpr
        intro u hum
        have hc : (done.map (fun t => t.name)).contains u.name = true :=
          (contains_eq_true_iff _ _).mpr (List.mem_map.mpr ⟨u, hum, rfl⟩)
        rw [hc]
        simp
      have h2 : (t :: (todo ++ rest)).filter
          (fun u => !(done.map (fun t => t.name)).contains u.name &&
            u.dependencies.all (fun d => (done.map (fun t => t.name)).contains d)) =
          t :: (todo ++ rest) := by
        apply List.filter_eq_self.mpr
        intro u hum
        have hc : (done.map (fun t => t.name)).contains u.name = false :=
          (contains_eq_false_iff _ _).mpr (hdisj u hum)
        have hd : u.dependencies = [] := hindep u (by rw [hsplit2]; exact List.mem_append_right _ hum)
        rw [hc, hd]
        simp
      rw [h1, h2, List.nil_append]
    have hlt : (done.map (fun t => t.name)).length < tasks.length := by
      rw [hsplit2]
      simp
    have hfuelstep : fuel + (t :: todo).length = (fuel + todo.length) + 1 := by
      simp only [List.length_cons]
      omega
    rw [hfuelstep]
    rw [schedLoop_succ_ready tasks env 1 (fuel + todo.length) _ t (todo ++ rest) hlt rfl hready]
    have htake : (t :: (todo ++ rest)).take 1 = [t] := by simp
    rw [htake]
    have htmem : t ∈ tasks := by rw [hsplit2]; exact List.mem_append_right _ (by simp)
    have hfold : [t].foldl (processTask env)
        { completed := done.map (fun t => t.name), errors := [],
          started := done.map (fun t => t.name) } =
        { completed := (done ++ [t]).map (fun t => t.name), errors := [],
          started := (done ++ [t]).map (fun t => t.name) } := by
      have hps : [t].foldl (processTask env)
          { completed := done.map (fun t => t.name), errors := [],
            started := done.map (fun t => t.name) } =
          processTask env
            { completed := done.map (fun t => t.name), errors := [],
              started := done.map (fun t => t.name) } t := rfl
      rw [hps]
      have hfr := (htodo t (by simp)).2
      unfold taskFails at hfr
      simp only [processTask, (htodo t (by simp)).1, hfr, Bool.not_true, Bool.false_eq_true,
        if_false, addCompleted]
      rw [(contains_eq_false_iff _ _).mpr (hdisj t (by simp))]
      simp
    rw [hfold]
    have hrec := ih (done ++ [t]) rest fuel (by rw [hsplit]; simp) hrest
      (fun x hx => htodo x (by simp [hx]))
    simpa using hrec

/-- With ceiling 1, an edge-free pending task whose directory is missing but
which has a regular-dependency fallback is re-dispatched forever: `processTask`
returns without marking it completed, so every wave selects it again and the
loop exhausts any fuel budget (the model's rendering of the non-terminating
`while` loop). -/
theorem schedLoop_spin_missing_dir (env : String → DepEnv) (tasks : List PackageTask)
    (pre rest : List PackageTask) (x : PackageTask)
    (hsplit : tasks = pre ++ x :: rest)
    (hnodup : (tasks.map (fun t => t.name)).Nodup)
    (hindep : ∀ t ∈ tasks, t.dependencies = [])
    (hxdir : (env x.name).dirExists = false)
    (hxreg : (env x.name).regularDep = true) :
    ∀ (fuel : Nat) (s : List String),
      schedLoop tasks env 1 fuel
        { completed := pre.map (fun t => t.name), errors := [], started := s } =
      .fuelOut { completed := pre.map (fun t => t.name), errors := [],
                 started := s ++ List.replicate fuel x.name } := by
  have hdisj : ∀ y ∈ x :: rest, y.name ∉ pre.map (fun u => u.name) := by
    intro y hy hmem
    have hmm : y.name ∈ (x :: rest).map (fun u => u.name) := List.mem_map.mpr ⟨y, hy, rfl⟩
    have hnd : ((pre.map (fun u => u.name)) ++ ((x :: rest).map (fun u => u.name))).Nodup := by
      rw [← List.map_append, ← hsplit]
      exact hnodup
    exact (List.nodup_append.mp hnd).2.2 hmem hmm
  have hready : tasks.filter (fun u => !(pre.map (fun t => t.name)).contains u.name &&
      u.dependencies.all (fun d => (pre.map (fun t => t.name)).contains d)) = x :: rest := by
    rw [hsplit, List.filter_append]
    have h1 : pre.filter (fun u => !(pre.map (fun t => t.name)).contains u.name &&
        u.dependencies.all (fun d => (pre.map (fun t => t.name)).contains d)) = [] := by
      apply List.filter_eq_nil_iff.mpr
      intro u hum
      have hc : (pre.map (fun t => t.name)).contains u.name = true :=
        (contains_eq_true_iff _ _).mpr (List.mem_map.mpr ⟨u, hum, rfl⟩)
      rw [hc]
      simp
    have h2 : (x :: rest).filter (fun u => !(pre.map (fun t => t.name)).contains u.name &&
        u.dependencies.all (fun d => (pre.map (fun t => t.name)).contains d)) = x :: rest := by
      apply List.filter_eq_self.mpr
      intro u hum
      have hc : (pre.map (fun t => t.name)).contains u.name = false :=
        (contains_eq_false_iff _ _).mpr (hdisj u hum)
      have hd : u.dependencies = [] := hindep u (by rw [hsplit]; exact List.mem_append_right _ hum)
      rw [hc, hd]
      simp
    rw [h1, h2, List.nil_append]
  have hlt : (pre.map (fun t => t.name)).length < tasks.length := by
    rw [hsplit]
    simp
  intro fuel
  induction fuel with
  | zero =>
    intro s
    simp [schedLoop]
  | succ fl ih =>
    intro s
    rw [schedLoop_succ_ready tasks env 1 fl _ x rest hlt rfl hready]
    have htake : (x :: rest).take 1 = [x] := by simp
    rw [htake]
    have hstep : [x].foldl (processTask env)
        { completed := pre.map (fun t => t.name), errors := [], started := s } =
        { completed := pre.map (fun t => t.name), errors := [], started := s ++ [x.name] } := by
      have hps : [x].foldl (processTask env)
          { completed := pre.map (fun t => t.name), errors := [], started := s } =
          processTask env
            { completed := pre.map (fun t => t.name), errors := [], started := s } x := rfl
      rw [hps]
      simp [processTask, hxdir, hxreg]
    rw [hstep]
    rw [ih (s ++ [x.name])]
    simp [List.replicate_succ]

/-- C1: on the cycle `A → B, B → A` the ORDERING half of the claim holds —
`topologicalSort` terminates, drops the re-entered edge with one warning, and
emits each task exactly once — but the EXECUTION half fails: the tasks keep
their original cyclic `dependencies`, so the first scheduler iteration finds
no ready task with nothing processing and throws the stuck-resolution error
before processing either task. Neither task of the cycle reaches a terminal
state, contradicting the claim (the code's own test suite expects circular
dependencies to be handled gracefully). -/
theorem cycle_parallel_stuck_eval :
    topologicalSort
        [{ name := "A", libDir := "da", dependencies := ["B"] },
         { name := "B", libDir := "db", dependencies := ["A"] }] =
      ([{ name := "B", libDir := "db", dependencies := ["A"] },
        { name := "A", libDir := "da", dependencies := ["B"] }], ["A"]) ∧
    processPackagesInParallel
        [{ name := "B", libDir := "db", dependencies := ["A"] },
         { name := "A", libDir := "da", dependencies := ["B"] }]
        (fun _ => { dirExists := true, regularDep := true, hasChanges := true, execOk := true })
        2 =
      .stuck [("B", ["A"]), ("A", ["B"])]
        { completed := [], errors := [], started := [] } :=
  ⟨rfl, rfl⟩

/-- C2 counterexample: independent tasks `A` (fails), `B`, `C` under the
default concurrency ceiling 1. `A` is started first and fails; the loop
condition `errors.length === 0` then ends dispatching, so `B` and `C` are
never started, let alone reach a terminal success state: the run exits with
failure after processing only `A`. -/
theorem parallel_failure_ceiling_one_cex :
    processPackagesInParallel
        [{ name := "A", libDir := "da", dependencies := [] },
         { name := "B", libDir := "db", dependencies := [] },
         { name := "C", libDir := "dc", dependencies := [] }]
        (fun n => if n == "A" then
          { dirExists := true, regularDep := true, hasChanges := true, execOk := false }
          else { dirExists := true, regularDep := true, hasChanges := true, execOk := true })
        1 =
      .failed { completed := ["A"], errors := [failMsg "A"], started := ["A"] } := rfl

/-- C2 amended: partial-failure isolation holds only for tasks dispatched
before the failure is recorded. When the ceiling is at least the number of
tasks, all independent tasks start in the first wave, every one of them —
including the failing ones — reaches a terminal state and is marked
completed, and only then does the run report overall failure listing exactly
the failed tasks. With a smaller ceiling, tasks not yet started when an error
is recorded are never dispatched (see the counterexample). -/
theorem parallel_failure_isolation_full_wave (tasks : List PackageTask)
    (env : String → DepEnv) (maxConcurrency : Nat)
    (hnodup : (tasks.map (fun t => t.name)).Nodup)
    (hindep : ∀ t ∈ tasks, t.dependencies = [])
    (hdir : ∀ t ∈ tasks, (env t.name).dirExists = true)
    (hC : tasks.length ≤ maxConcurrency)
    (hfail : ∃ t ∈ tasks, taskFails env t = true) :
    processPackagesInParallel tasks env maxConcurrency =
      .failed { completed := tasks.map (fun t => t.name),
                errors := (tasks.filter (fun t => taskFails env t)).map (fun t => failMsg t.name),
                started := tasks.map (fun t => t.name) } := by
  obtain ⟨f, hfmem, hff⟩ := hfail
  have hne : tasks ≠ [] := List.ne_nil_of_mem hfmem
  obtain ⟨t0, ts0, hT⟩ := List.exists_cons_of_ne_nil hne
  have hmsgs : (tasks.filter (fun t => taskFails env t)).map (fun t => failMsg t.name) ≠ [] := by
    intro hmm
    have hfm : f ∈ tasks.filter (fun t => taskFails env t) :=
      List.mem_filter.mpr ⟨hfmem, hff⟩
    rw [List.map_eq_nil_iff] at hmm
    rw [hmm] at hfm
    cases hfm
  have hready : tasks.filter (fun t =>
      !(([] : List String)).contains t.name &&
        t.dependencies.all (fun d => ([] : List String).contains d)) = tasks := by
    apply List.filter_eq_self.mpr
    intro t htm
    rw [hindep t htm]
    rfl
  have hfold := foldl_processTask_spec env tasks
    { completed := [], errors := [], started := [] }
    hdir (fun t _ h => by simp at h) hnodup
  unfold processPackagesInParallel
  rw [show tasks.length + 1 = tasks.length + 1 from rfl]
  rw [hT] at hready ⊢
  rw [schedLoop_succ_ready (t0 :: ts0) env maxConcurrency (t0 :: ts0).length
    { completed := [], errors := [], started := [] } t0 ts0 (by simp) rfl hready]
  rw [List.take_of_length_le (by rw [← hT]; exact hC)]
  rw [← hT]
  rw [hfold]
  have hlen : tasks.length = ts0.length + 1 := by rw [hT]; rfl
  rw [hlen]
  rw [schedLoop_succ_done]
  · rw [if_neg (by simpa using hmsgs)]
    rfl
  · intro hcc
    exact hmsgs (by simpa using hcc.2)

/-- Witness for C2 amended: three independent tasks under ceiling 3, the first
failing: all three terminate, the run fails listing only `A`. -/
theorem parallel_failure_isolation_full_wave_witness :
    ((([{ name := "A", libDir := "da", dependencies := [] },
        { name := "B", libDir := "db", dependencies := [] },
        { name := "C", libDir := "dc", dependencies := [] }] :
          List PackageTask).map (fun t => t.name)).Nodup ∧
      (∃ t ∈ ([{ name := "A", libDir := "da", dependencies := [] },
        { name := "B", libDir := "db", dependencies := [] },
        { name := "C", libDir := "dc", dependencies := [] }] : List PackageTask),
        taskFails (fun n => if n == "A" then
          { dirExists := true, regularDep := true, hasChanges := true, execOk := false }
          else { dirExists := true, regularDep := true, hasChanges := true, execOk := true })
          t = true)) ∧
    processPackagesInParallel
        [{ name := "A", libDir := "da", dependencies := [] },
         { name := "B", libDir := "db", dependencies := [] },
         { name := "C", libDir := "dc", dependencies := [] }]
        (fun n => if n == "A" then
          { dirExists := true, regularDep := true, hasChanges := true, execOk := false }
          else { dirExists := true, regularDep := true, hasChanges := true, execOk := true })
        3 =
      .failed { completed := ["A", "B", "C"], errors := [failMsg "A"],
                started := ["A", "B", "C"] } := by
  refine ⟨⟨by decide, by decide⟩, ?_⟩
  have h := parallel_failure_isolation_full_wave
    [{ name := "A", libDir := "da", dependencies := [] },
     { name := "B", libDir := "db", dependencies := [] },
     { name := "C", libDir := "dc", dependencies := [] }]
    (fun n => if n == "A" then
      { dirExists := true, regularDep := true, hasChanges := true, execOk := false }
      else { dirExists := true, regularDep := true, hasChanges := true, execOk := true })
    3 (by decide) (by decide) (by decide) (by decide) (by decide)
  rw [h]
  rfl

/-- C3 counterexample: with the parallel flag set, a concurrency ceiling of 1
is NOT behaviorally identical to sequential mode. Declarations `[A, B]` where
`A`'s manifest depends on `B`: the parallel path first topologically sorts and
then processes tasks in order `B, A`, while the sequential path processes the
declared order `A, B`. -/
theorem ceiling_one_reorders_cex :
    processPackagesInParallel
        (topologicalSort (buildDependencyGraph [("A", "pa"), ("B", "pb")]
          (fun d => if d == "pa" then
            some { dependencies := ["B"], devDependencies := [], peerDependencies := [] }
            else if d == "pb" then
            some { dependencies := [], devDependencies := [], peerDependencies := [] }
            else none)
          (fun r => r))).1
        (fun _ => { dirExists := true, regularDep := true, hasChanges := true, execOk := true })
        1 =
      .ok { completed := ["B", "A"], errors := [], started := ["B", "A"] } ∧
    installRelativeDepsSequential
        (fun _ => { dirExists := true, regularDep := true, hasChanges := true, execOk := true })
        ["A", "B"] = .ok ["A", "B"] ∧
    (["B", "A"] : List String) ≠ ["A", "B"] :=
  ⟨rfl, rfl, by decide⟩

/-- C3 amended: the dispatch condition sends runs with the parallel flag unset
or at most one declared dependency to the sequential path. In parallel mode
with ceiling 1 the scheduler processes tasks strictly one at a time in
TOPOLOGICAL order, which coincides with the declared order exactly when the
tasks have no internal edges. In that edge-free case, PROVIDED every target
directory exists and no executor throws, the run is behaviorally identical to
sequential mode: same processing order, same success outcome. Outside those
conditions the two modes are not identical even edge-free: a task whose
directory is missing but which has a regular-dependency fallback makes the
sequential loop return early with a normal status (skipping the remaining
declarations), while the ceiling-1 parallel loop never marks that task
completed and re-dispatches it forever, exhausting any fuel budget. With
internal edges the topological order can differ from the declared order (see
the counterexample). -/
theorem ceiling_one_no_edges_sequential (tasks : List PackageTask) (env : String → DepEnv)
    (parallel : Bool)
    (hnodup : (tasks.map (fun t => t.name)).Nodup)
    (hindep : ∀ t ∈ tasks, t.dependencies = [])
    (hdir : ∀ t ∈ tasks, (env t.name).dirExists = true)
    (hok : ∀ t ∈ tasks, taskFails env t = false) :
    usesParallelPath parallel 1 = false ∧
    usesParallelPath false tasks.length = false ∧
    topologicalSort tasks = (tasks, []) ∧
    processPackagesInParallel tasks env 1 =
      .ok { completed := tasks.map (fun t => t.name), errors := [],
            started := tasks.map (fun t => t.name) } ∧
    installRelativeDepsSequential env (tasks.map (fun t => t.name)) =
      .ok (tasks.map (fun t => t.name)) ∧
    (∀ (pre rest : List PackageTask) (x : PackageTask) (env2 : String → DepEnv),
      (((pre ++ x :: rest).map (fun t => t.name)).Nodup) →
      (∀ t ∈ pre ++ x :: rest, t.dependencies = []) →
      (∀ t ∈ pre, (env2 t.name).dirExists = true ∧ taskFails env2 t = false) →
      (env2 x.name).dirExists = false →
      (env2 x.name).regularDep = true →
      installRelativeDepsSequential env2 ((pre ++ x :: rest).map (fun t => t.name)) =
        .ok (pre.map (fun t => t.name) ++ [x.name]) ∧
      processPackagesInParallel (pre ++ x :: rest) env2 1 =
        .fuelOut { completed := pre.map (fun t => t.name), errors := [],
                   started := pre.map (fun t => t.name) ++
                     List.replicate (rest.length + 2) x.name }) := by
  refine ⟨by simp [usesParallelPath], rfl, topologicalSort_no_edges tasks hnodup hindep,
    ?_, ?_, ?_⟩
  · unfold processPackagesInParallel
    exact schedLoop_ceiling_one env tasks hnodup hdir hok hindep tasks [] (tasks.length + 1)
      rfl (by omega)
  · unfold installRelativeDepsSequential
    have h := seqRun_all_ok env (tasks.map (fun t => t.name)) []
      (fun n hn => by
        obtain ⟨t, htm, rfl⟩ := List.mem_map.mp hn
        have hf := hok t htm
        unfold taskFails at hf
        exact ⟨hdir t htm, hf⟩)
    rw [h]
    rfl
  · intro pre rest x env2 hn2 hi2 hpre2 hxd hxr
    constructor
    · unfold installRelativeDepsSequential
      rw [show (pre ++ x :: rest).map (fun t => t.name) =
        pre.map (fun t => t.name) ++ x.name :: rest.map (fun t => t.name) by simp]
      have h := seqRun_missing_dir env2 (rest.map (fun t => t.name)) x.name hxd hxr
        (pre.map (fun t => t.name)) []
        (fun n hn => by
          obtain ⟨t, htm, rfl⟩ := List.mem_map.mp hn
          have hf := (hpre2 t htm).2
          unfold taskFails at hf
          exact ⟨(hpre2 t htm).1, hf⟩)
      rw [h]
      simp
    · unfold processPackagesInParallel
      have hfuelsplit : (pre ++ x :: rest).length + 1 = (rest.length + 2) + pre.length := by
        simp only [List.length_append, List.length_cons]
        omega
      rw [hfuelsplit]
      have hwalk := schedLoop_walk_prefix env2 (pre ++ x :: rest) hn2 hi2
        pre [] (x :: rest) (rest.length + 2) (by simp) (by simp) hpre2
      simp only [List.map_nil, List.nil_append] at hwalk
      rw [hwalk]
      exact schedLoop_spin_missing_dir env2 (pre ++ x :: rest) pre rest x rfl hn2 hi2
        hxd hxr (rest.length + 2) (pre.map (fun t => t.name))

/-- Witness for C3 amended: two edge-free tasks behave identically in both
modes under ceiling 1, in declared order; and a single edge-free task with a
missing directory and a regular-dependency fallback makes sequential mode
return normally while the parallel loop exhausts its fuel re-dispatching it. -/
theorem ceiling_one_no_edges_sequential_witness :
    ((([{ name := "A", libDir := "da", dependencies := [] },
        { name := "B", libDir := "db", dependencies := [] }] :
          List PackageTask).map (fun t => t.name)).Nodup) ∧
    (usesParallelPath true 1 = false ∧
      usesParallelPath false ([{ name := "A", libDir := "da", dependencies := [] },
        { name := "B", libDir := "db", dependencies := [] }] :
          List PackageTask).length = false ∧
      topologicalSort [{ name := "A", libDir := "da", dependencies := [] },
        { name := "B", libDir := "db", dependencies := [] }] =
        ([{ name := "A", libDir := "da", dependencies := [] },
          { name := "B", libDir := "db", dependencies := [] }], []) ∧
      processPackagesInParallel
        [{ name := "A", libDir := "da", dependencies := [] },
         { name := "B", libDir := "db", dependencies := [] }]
        (fun _ => { dirExists := true, regularDep := true, hasChanges := false, execOk := true })
        1 =
        .ok { completed := ["A", "B"], errors := [], started := ["A", "B"] } ∧
      installRelativeDepsSequential
        (fun _ => { dirExists := true, regularDep := true, hasChanges := false, execOk := true })
        (([{ name := "A", libDir := "da", dependencies := [] },
          { name := "B", libDir := "db", dependencies := [] }] :
            List PackageTask).map (fun t => t.name)) =
        .ok (([{ name := "A", libDir := "da", dependencies := [] },
          { name := "B", libDir := "db", dependencies := [] }] :
            List PackageTask).map (fun t => t.name))) ∧
    installRelativeDepsSequential
      (fun n => if n == "X" then
          { dirExists := false, regularDep := true, hasChanges := true, execOk := true }
        else { dirExists := true, regularDep := true, hasChanges := true, execOk := true })
      ["X"] = .ok ["X"] ∧
    processPackagesInParallel
      [{ name := "X", libDir := "dx", dependencies := [] }]
      (fun n => if n == "X" then
          { dirExists := false, regularDep := true, hasChanges := true, execOk := true }
        else { dirExists := true, regularDep := true, hasChanges := true, execOk := true })
      1 =
      .fuelOut { completed := [], errors := [], started := ["X", "X"] } := by
  refine ⟨by decide, ?_, ?_, ?_⟩
  case _ =>
    have h := ceiling_one_no_edges_sequential
      [{ name := "A", libDir := "da", dependencies := [] },
       { name := "B", libDir := "db", dependencies := [] }]
      (fun _ => { dirExists := true, regularDep := true, hasChanges := false, execOk := true })
      true (by decide) (by decide) (by decide) (by decide)
    obtain ⟨h1, h2, h3, h4, h5, _⟩ := h
    exact ⟨h1, h2, h3, by rw [h4]; rfl, h5⟩
  case _ =>
    have h := ceiling_one_no_edges_sequential
      [{ name := "A", libDir := "da", dependencies := [] },
       { name := "B", libDir := "db", dependencies := [] }]
      (fun _ => { dirExists := true, regularDep := true, hasChanges := false, execOk := true })
      true (by decide) (by decide) (by decide) (by decide)
    have hd := h.2.2.2.2.2 [] []
      { name := "X", libDir := "dx", dependencies := [] }
      (fun n => if n == "X" then
          { dirExists := false, regularDep := true, hasChanges := true, execOk := true }
        else { dirExists := true, regularDep := true, hasChanges := true, execOk := true })
      (by decide) (by decide) (by decide) (by decide) (by decide)
    exact hd.1
  case _ =>
    have h := ceiling_one_no_edges_sequential
      [{ name := "A", libDir := "da", dependencies := [] },
       { name := "B", libDir := "db", dependencies := [] }]
      (fun _ => { dirExists := true, regularDep := true, hasChanges := false, execOk := true })
      true (by decide) (by decide) (by decide) (by decide)
    have hd := h.2.2.2.2.2 [] []
      { name := "X", libDir := "dx", dependencies := [] }
      (fun n => if n == "X" then
          { dirExists := false, regularDep := true, hasChanges := true, execOk := true }
        else { dirExists := true, regularDep := true, hasChanges := true, execOk := true })
      (by decide) (by decide) (by decide) (by decide) (by decide)
    exact hd.2

end RelativeDeps
